import Mathlib

/-!
# Verification of the URL-encoding pipeline of `compression.cpp`

The program builds a shareable URL from a tensor expression and a list of
index sizes: each input is wrapped into a JSON-like literal, compressed with
zlib (gzip framing), base64-encoded, percent-encoded, and substituted into a
fixed URL template.

Byte strings (`std::string` values) are modelled as `List Nat`, each element a
byte value `< 256`.  The pure functions `base64_encode`, `url_encode` and
`create_shareable_url` are translated directly from the source; the zlib
deflate engine, which lives outside this repository, is modelled abstractly
(for the driver-loop claims) and from the spec (for the gzip round-trip
claim).
-/

/-- Bytes of a Lean string literal (all literals used here are ASCII). -/
def strBytes (s : String) : List Nat := s.toList.map Char.toNat

/-- The base64 alphabet, from the source's `base64_chars` table. -/
def base64_chars : List Nat :=
  strBytes "ABCDEFGHIJKLMNOPQRSTUVWXYZabcdefghijklmnopqrstuvwxyz0123456789+/"

/-- `base64_chars[i]`: indexing into the alphabet table. -/
def b64char (i : Nat) : Nat := base64_chars.getD i 0

/-- Translation of `base64_encode` (compression.cpp:13-54).  The C++ loop
consumes bytes three at a time, emitting four alphabet characters per group;
the trailing group of one or two bytes is zero-padded for the bit arithmetic,
emits `i + 1` data characters, and is completed with `=` (byte 61) padding. -/
def base64_encode : List Nat → List Nat
  | a :: b :: c :: rest =>
      b64char ((a &&& 0xfc) >>> 2)
        :: b64char (((a &&& 0x03) <<< 4) + ((b &&& 0xf0) >>> 4))
        :: b64char (((b &&& 0x0f) <<< 2) + ((c &&& 0xc0) >>> 6))
        :: b64char (c &&& 0x3f)
        :: base64_encode rest
  | [a, b] =>
      [b64char ((a &&& 0xfc) >>> 2),
       b64char (((a &&& 0x03) <<< 4) + ((b &&& 0xf0) >>> 4)),
       b64char (((b &&& 0x0f) <<< 2) + ((0 &&& 0xc0) >>> 6)),
       61]
  | [a] =>
      [b64char ((a &&& 0xfc) >>> 2),
       b64char (((a &&& 0x03) <<< 4) + ((0 &&& 0xf0) >>> 4)),
       61, 61]
  | [] => []

/-- Model of C `isalnum` in the default "C" locale: ASCII digits and letters.
The source calls `isalnum(c)` on each character of the input. -/
def isalnumByte (c : Nat) : Bool :=
  (48 ≤ c && c ≤ 57) || (65 ≤ c && c ≤ 90) || (97 ≤ c && c ≤ 122)

/-- The hex-digit table `"0123456789ABCDEF"` of `url_encode`. -/
def hexTable : List Nat := strBytes "0123456789ABCDEF"

/-- Translation of `url_encode` (compression.cpp:98-115): alphanumerics and
`- _ . ~` pass through; every other byte becomes `%` (37) followed by the two
uppercase hex digits of its value. -/
def url_encode : List Nat → List Nat
  | [] => []
  | c :: rest =>
      if isalnumByte c || c == 45 || c == 95 || c == 46 || c == 126 then
        c :: url_encode rest
      else
        37 :: hexTable.getD (c >>> 4) 0 :: hexTable.getD (c &&& 15) 0
          :: url_encode rest

/-! ## A standard base64 decoder

Modelled from the spec: the source ships no decoder ("no decompression /
decoding path"), but the spec's round-trip property quantifies over the
standard base64 decoding of the output, so the standard decoder is defined
here from the base64 description in the spec's glossary. -/

/-- Position of a byte in the base64 alphabet. -/
def b64index (c : Nat) : Option Nat :=
  if 65 ≤ c ∧ c ≤ 90 then some (c - 65)
  else if 97 ≤ c ∧ c ≤ 122 then some (c - 71)
  else if 48 ≤ c ∧ c ≤ 57 then some (c + 4)
  else if c = 43 then some 62
  else if c = 47 then some 63
  else none

/-- Modelled from the spec: the standard base64 decoder assumed by the
round-trip property.  Four characters at a time; a final quantum may end in
one or two `=` (61) padding characters. -/
def base64_decode : List Nat → Option (List Nat)
  | [] => some []
  | c0 :: c1 :: c2 :: c3 :: rest =>
      match b64index c0, b64index c1 with
      | some i0, some i1 =>
        if c2 = 61 then
          if c3 = 61 ∧ rest = [] then some [i0 * 4 + i1 / 16] else none
        else
          match b64index c2 with
          | some i2 =>
            if c3 = 61 then
              if rest = [] then some [i0 * 4 + i1 / 16, i1 % 16 * 16 + i2 / 4]
              else none
            else
              match b64index c3 with
              | some i3 =>
                (base64_decode rest).map
                  (fun d => (i0 * 4 + i1 / 16) :: (i1 % 16 * 16 + i2 / 4)
                    :: (i2 % 4 * 64 + i3) :: d)
              | none => none
          | none => none
      | _, _ => none
  | _ => none

/-! ## A standard percent-decoder

Modelled from the spec: the source ships no decoder; the spec's round-trip
property (`urlDecode(urlEncode(t)) == t`) assumes the standard reading of
percent-encoding, defined here from the spec's glossary entry. -/

/-- Value of an uppercase hexadecimal digit byte. -/
def hexVal (c : Nat) : Option Nat :=
  if 48 ≤ c ∧ c ≤ 57 then some (c - 48)
  else if 65 ≤ c ∧ c ≤ 70 then some (c - 55)
  else none

/-- Modelled from the spec: the standard percent-decoder, `%XX` becomes the
byte with hex value `XX`, any other byte stands for itself. -/
def url_decode : List Nat → Option (List Nat)
  | [] => some []
  | c :: rest =>
      if c = 37 then
        match rest with
        | h :: l :: rest2 =>
          match hexVal h, hexVal l with
          | some hv, some lv => (url_decode rest2).map (fun d => (hv * 16 + lv) :: d)
          | _, _ => none
        | _ => none
      else (url_decode rest).map (fun d => c :: d)

/-- The pass-through set of the claim: ASCII letters, ASCII digits, and the
four marks `- _ . ~`, written from the claim's own description. -/
def isUnreserved (b : Nat) : Bool :=
  (65 ≤ b && b ≤ 90) || (97 ≤ b && b ≤ 122) || (48 ≤ b && b ≤ 57) ||
  b == 45 || b == 95 || b == 46 || b == 126

/-- Modelled from the spec: the per-character output the claim describes —
unreserved bytes unchanged, all others `%` plus two uppercase hex digits. -/
def urlEncodeCharSpec (b : Nat) : List Nat :=
  if isUnreserved b then [b]
  else [37, hexTable.getD (b / 16) 0, hexTable.getD (b % 16) 0]


/-! ## The compression driver loop of `compress_data`

The deflate engine itself is zlib, outside this repository.  Its calls are
modelled abstractly: a `DeflateCall` records what one `deflate(&zs, Z_FINISH)`
call did, and `compress_data` is the source's driver loop over a given call
behaviour. -/

/-- zlib return code `Z_OK`. -/
def Z_OK : Int := 0

/-- zlib return code `Z_STREAM_END`. -/
def Z_STREAM_END : Int := 1

/-- Modelled from the spec: one call to the external zlib `deflate` routine
under `Z_FINISH`: the bytes it wrote into the output buffer, its return code,
and the `avail_in` value it left behind. -/
structure DeflateCall where
  out : List Nat
  ret : Int
  availIn : Nat

/-- The source's do/while loop (compression.cpp:74-86): call `deflate`,
append the newly produced bytes, repeat while the return code is `Z_OK`.
Returns the accumulated output, the terminal return code and the terminal
`avail_in`; `none` models a call behaviour under which the loop never stops. -/
def deflateLoop : List DeflateCall → Option (List Nat × Int × Nat)
  | [] => none
  | c :: rest =>
      if c.ret = Z_OK then
        (deflateLoop rest).map (fun r => (c.out ++ r.1, r.2.1, r.2.2))
      else
        some (c.out, c.ret, c.availIn)

/-- Translation of `compress_data` (compression.cpp:57-95) over the abstract
engine: `initOk` is whether `deflateInit2` succeeded, `calls` is the
behaviour of the external `deflate` routine; `Except.error` models the two
`throw std::runtime_error` sites. -/
def compress_data (initOk : Bool) (calls : List DeflateCall) :
    Option (Except String (List Nat)) :=
  if initOk = false then some (Except.error "deflateInit failed")
  else
    match deflateLoop calls with
    | none => none
    | some (out, ret, _) =>
        if ret = Z_STREAM_END then some (Except.ok out)
        else some (Except.error "compression failed")

/-! ## The URL builder `create_shareable_url` -/

/-- The constant endpoint of the URL template (compression.cpp:129). -/
def base_url : List Nat :=
  strBytes "https://seriousseal.github.io/tensor_expressions_webapp/"

/-- Translation of `create_shareable_url` (compression.cpp:117-130).  The
compressor is passed in as a function because the deflate engine is external
to the repository; `Except` models C++ exception propagation out of
`compress_data`.  No escaping is applied to `expression`: it is wrapped in
literal `"` bytes (34), and `sizes` in literal `[` / `]` bytes (91 / 93). -/
def create_shareable_url (compress : List Nat → Except String (List Nat))
    (expression sizes : List Nat) : Except String (List Nat) :=
  let json_expr := strBytes "\"" ++ expression ++ strBytes "\""
  let json_sizes := strBytes "[" ++ sizes ++ strBytes "]"
  match compress json_expr with
  | Except.error e => Except.error e
  | Except.ok compressed_expr =>
    match compress json_sizes with
    | Except.error e => Except.error e
    | Except.ok compressed_sizes =>
      Except.ok (base_url ++ strBytes "?e="
        ++ url_encode (base64_encode compressed_expr)
        ++ strBytes "&s=" ++ url_encode (base64_encode compressed_sizes))

/-! ## A gzip-framed stored-deflate model

Modelled from the spec: the actual compressed bytes are produced by zlib's
`deflate`, which is outside this repository.  The spec pins down the framing
(`deflateInit2` with `MAX_WBITS | 16` produces a standard gzip member:
10-byte header, a deflate block stream, CRC32 and length trailer) and the
round-trip property.  The model realises the contract with stored (BTYPE=00)
deflate blocks, together with the matching gzip decompressor. -/

/-- One step of the reflected CRC-32 bit loop (polynomial `0xEDB88320`). -/
def crc32_step (c : Nat) : Nat :=
  if c % 2 = 1 then (c >>> 1) ^^^ 0xEDB88320 else c >>> 1

/-- Fold one byte into a CRC-32 accumulator. -/
def crc32_update (c b : Nat) : Nat := crc32_step^[8] (c ^^^ b % 256)

/-- CRC-32 of a byte sequence, as stored in the gzip trailer. -/
def crc32 (s : List Nat) : Nat := (s.foldl crc32_update 0xFFFFFFFF) ^^^ 0xFFFFFFFF

/-- Four-byte little-endian encoding of the low 32 bits of `n`. -/
def le32 (n : Nat) : List Nat :=
  [n % 256, n / 256 % 256, n / 65536 % 256, n / 16777216 % 256]

/-- Header of one stored deflate block: `BFINAL`/`BTYPE=00` byte, `LEN`
little-endian, `NLEN` (the complement of `LEN`). -/
def storedBlockHeader (bfinal len : Nat) : List Nat :=
  [bfinal, len % 256, len / 256, (65535 - len) % 256, (65535 - len) / 256]

/-- The deflate block stream: stored blocks of at most 65535 bytes each. -/
def deflateStoredBlocks (s : List Nat) : List Nat :=
  if _h : s.length ≤ 65535 then storedBlockHeader 1 s.length ++ s
  else storedBlockHeader 0 65535 ++ s.take 65535 ++ deflateStoredBlocks (s.drop 65535)
termination_by s.length
decreasing_by simp [List.length_drop]; omega

/-- Modelled from the spec: the gzip member `compress_data` must produce —
magic bytes `1f 8b`, method 8 (deflate), no flags, zero mtime, `XFL = 2`
(best compression), `OS = 3`, then the deflate stream, then CRC32 and input
length, both little-endian. -/
def gzip_compress (s : List Nat) : List Nat :=
  31 :: 139 :: 8 :: 0 :: 0 :: 0 :: 0 :: 0 :: 2 :: 3 ::
    (deflateStoredBlocks s ++ (le32 (crc32 s) ++ le32 (s.length % 4294967296)))

/-- Inflate a stored-block deflate stream; returns the decompressed bytes and
whatever follows the final block. -/
def inflateStored : List Nat → Option (List Nat × List Nat)
  | bfinal :: lenLo :: lenHi :: nlenLo :: nlenHi :: rest =>
      if lenLo + 256 * lenHi + (nlenLo + 256 * nlenHi) = 65535 ∧
          lenLo + 256 * lenHi ≤ rest.length then
        if bfinal = 1 then
          some (rest.take (lenLo + 256 * lenHi), rest.drop (lenLo + 256 * lenHi))
        else if bfinal = 0 then
          (inflateStored (rest.drop (lenLo + 256 * lenHi))).map
            (fun pr => (rest.take (lenLo + 256 * lenHi) ++ pr.1, pr.2))
        else none
      else none
  | _ => none
termination_by l => l.length
decreasing_by simp [List.length_drop]; omega

/-- Modelled from the spec: a standard gzip decompressor — check the header,
inflate the deflate stream, verify the CRC32/length trailer. -/
def gzip_decompress (g : List Nat) : Option (List Nat) :=
  match g with
  | m1 :: m2 :: cm :: flg :: _t1 :: _t2 :: _t3 :: _t4 :: _xf :: _os :: rest =>
      if m1 = 31 ∧ m2 = 139 ∧ cm = 8 ∧ flg = 0 then
        match inflateStored rest with
        | some (data, trailer) =>
            if trailer = le32 (crc32 data) ++ le32 (data.length % 4294967296)
            then some data else none
        | none => none
      else none
  | _ => none

set_option maxRecDepth 16384

/-! ## Byte-level arithmetic readings of the source's bit operations -/

theorem byte_and_fc_shr2 (a : Nat) (h : a < 256) : (a &&& 0xfc) >>> 2 = a / 4 :=
  (by decide : ∀ x : Fin 256, (x.val &&& 0xfc) >>> 2 = x.val / 4) ⟨a, h⟩

theorem byte_and_03_shl4 (a : Nat) (h : a < 256) : (a &&& 0x03) <<< 4 = a % 4 * 16 :=
  (by decide : ∀ x : Fin 256, (x.val &&& 0x03) <<< 4 = x.val % 4 * 16) ⟨a, h⟩

theorem byte_and_f0_shr4 (a : Nat) (h : a < 256) : (a &&& 0xf0) >>> 4 = a / 16 :=
  (by decide : ∀ x : Fin 256, (x.val &&& 0xf0) >>> 4 = x.val / 16) ⟨a, h⟩

theorem byte_and_0f_shl2 (a : Nat) (h : a < 256) : (a &&& 0x0f) <<< 2 = a % 16 * 4 :=
  (by decide : ∀ x : Fin 256, (x.val &&& 0x0f) <<< 2 = x.val % 16 * 4) ⟨a, h⟩

theorem byte_and_c0_shr6 (a : Nat) (h : a < 256) : (a &&& 0xc0) >>> 6 = a / 64 :=
  (by decide : ∀ x : Fin 256, (x.val &&& 0xc0) >>> 6 = x.val / 64) ⟨a, h⟩

theorem byte_and_3f (a : Nat) (h : a < 256) : a &&& 0x3f = a % 64 :=
  (by decide : ∀ x : Fin 256, x.val &&& 0x3f = x.val % 64) ⟨a, h⟩

theorem byte_shr4 (a : Nat) (h : a < 256) : a >>> 4 = a / 16 :=
  (by decide : ∀ x : Fin 256, x.val >>> 4 = x.val / 16) ⟨a, h⟩

theorem byte_and_15 (a : Nat) (h : a < 256) : a &&& 15 = a % 16 :=
  (by decide : ∀ x : Fin 256, x.val &&& 15 = x.val % 16) ⟨a, h⟩

/-! ## Facts about the alphabet table -/

theorem b64index_b64char (i : Nat) (h : i < 64) : b64index (b64char i) = some i :=
  (by decide : ∀ x : Fin 64, b64index (b64char x.val) = some x.val) ⟨i, h⟩

theorem b64char_ne_pad (i : Nat) (h : i < 64) : b64char i ≠ 61 :=
  (by decide : ∀ x : Fin 64, b64char x.val ≠ 61) ⟨i, h⟩

theorem b64char_mem (i : Nat) (h : i < 64) : b64char i ∈ base64_chars :=
  (by decide : ∀ x : Fin 64, b64char x.val ∈ base64_chars) ⟨i, h⟩

/-! ## Structure of the base64 encoder -/

theorem base64_encode_append (t r : List Nat) (h : t.length % 3 = 0) :
    base64_encode (t ++ r) = base64_encode t ++ base64_encode r := by
  induction t using base64_encode.induct with
  | case1 a b c rest ih =>
      have hr : rest.length % 3 = 0 := by simp at h; omega
      simp only [List.cons_append, base64_encode, List.append_eq]
      rw [ih hr]
  | case2 a b => simp at h
  | case3 a => simp at h
  | case4 => simp [base64_encode]

theorem base64_decode_encode (s : List Nat) (hs : ∀ b ∈ s, b < 256) :
    base64_decode (base64_encode s) = some s := by
  induction s using base64_encode.induct with
  | case1 a b c rest ih =>
      have ha : a < 256 := hs a (by simp)
      have hb : b < 256 := hs b (by simp)
      have hc : c < 256 := hs c (by simp)
      have hrest : ∀ x ∈ rest, x < 256 := fun x hx => hs x (by simp [hx])
      simp only [base64_encode]
      rw [byte_and_fc_shr2 a ha, byte_and_03_shl4 a ha, byte_and_f0_shr4 b hb,
        byte_and_0f_shl2 b hb, byte_and_c0_shr6 c hc, byte_and_3f c hc]
      simp only [base64_decode,
        b64index_b64char (a / 4) (by omega),
        b64index_b64char (a % 4 * 16 + b / 16) (by omega),
        b64index_b64char (b % 16 * 4 + c / 64) (by omega),
        b64index_b64char (c % 64) (by omega),
        if_neg (b64char_ne_pad (b % 16 * 4 + c / 64) (by omega)),
        if_neg (b64char_ne_pad (c % 64) (by omega)),
        ih hrest, Option.map_some', Option.some.injEq, List.cons.injEq]
      refine ⟨by omega, by omega, by omega, trivial⟩
  | case2 a b =>
      have ha : a < 256 := hs a (by simp)
      have hb : b < 256 := hs b (by simp)
      have hz : ((0 : Nat) &&& 0xc0) >>> 6 = 0 := rfl
      simp only [base64_encode, hz]
      rw [byte_and_fc_shr2 a ha, byte_and_03_shl4 a ha, byte_and_f0_shr4 b hb,
        byte_and_0f_shl2 b hb]
      simp only [base64_decode,
        b64index_b64char (a / 4) (by omega),
        b64index_b64char (a % 4 * 16 + b / 16) (by omega),
        b64index_b64char (b % 16 * 4 + 0) (by omega),
        if_neg (b64char_ne_pad (b % 16 * 4 + 0) (by omega)),
        eq_self_iff_true, and_self, if_true, Option.some.injEq, List.cons.injEq,
        and_true]
      omega
  | case3 a =>
      have ha : a < 256 := hs a (by simp)
      have hz : ((0 : Nat) &&& 0xf0) >>> 4 = 0 := rfl
      simp only [base64_encode, hz]
      rw [byte_and_fc_shr2 a ha, byte_and_03_shl4 a ha]
      simp only [base64_decode,
        b64index_b64char (a / 4) (by omega),
        b64index_b64char (a % 4 * 16 + 0) (by omega),
        eq_self_iff_true, and_self, if_true, Option.some.injEq, List.cons.injEq,
        and_true]
      omega
  | case4 => rfl

/-! ## Claim theorems about the base64 encoder -/

/-- C9: for every input of length `n`, `base64_encode` produces exactly
`4 * ceil(n / 3)` bytes of output; in particular the output length is always
a multiple of 4. -/
theorem claim_C9_base64_encode_length : ∀ s : List Nat,
    (base64_encode s).length = 4 * ((s.length + 2) / 3) ∧
    (base64_encode s).length % 4 = 0 := by
  have H : ∀ t : List Nat, (base64_encode t).length = 4 * ((t.length + 2) / 3) := by
    intro t
    induction t using base64_encode.induct with
    | case1 a b c rest ih => simp [base64_encode, ih]; omega
    | case2 a b => simp [base64_encode]
    | case3 a => simp [base64_encode]
    | case4 => simp [base64_encode]
  exact fun s => ⟨H s, by rw [H s]; omega⟩

/-- C8: `base64_encode` and `url_encode` are total functions (they are plain
Lean functions on all of `List Nat`), and both map the empty input to the
empty output; in particular `base64_encode []` emits no padding. -/
theorem claim_C8_empty_input : base64_encode [] = [] ∧ url_encode [] = [] :=
  ⟨rfl, rfl⟩

/-- C2: when the input length is not a multiple of 3, the final quantum is
two data characters plus `==` (one leftover byte) or three data characters
plus `=` (two leftover bytes); and the three concrete padding examples from
the spec hold. -/
theorem claim_C2_base64_padding :
    (∀ s : List Nat, (∀ b ∈ s, b < 256) →
      (s.length % 3 = 1 → ∃ d1 d2, d1 ∈ base64_chars ∧ d2 ∈ base64_chars ∧
        base64_encode s = base64_encode (s.take (s.length - 1)) ++ [d1, d2, 61, 61]) ∧
      (s.length % 3 = 2 → ∃ d1 d2 d3, d1 ∈ base64_chars ∧ d2 ∈ base64_chars ∧
        d3 ∈ base64_chars ∧
        base64_encode s = base64_encode (s.take (s.length - 2)) ++ [d1, d2, d3, 61])) ∧
    base64_encode (strBytes "M") = strBytes "TQ==" ∧
    base64_encode (strBytes "Ma") = strBytes "TWE=" ∧
    base64_encode (strBytes "Man") = strBytes "TWFu" := by
  refine ⟨?_, by decide, by decide, by decide⟩
  intro s hs
  constructor
  · intro h1
    have hsplit := (List.take_append_drop (s.length - 1) s).symm
    have hdlen : (s.drop (s.length - 1)).length = 1 := by simp; omega
    obtain ⟨a, hal⟩ := List.length_eq_one.mp hdlen
    have ha : a < 256 := hs a (List.drop_subset _ _ (by rw [hal]; simp))
    have htake : (s.take (s.length - 1)).length % 3 = 0 := by
      simp [List.length_take]; omega
    have hz : ((0 : Nat) &&& 0xf0) >>> 4 = 0 := rfl
    refine ⟨b64char ((a &&& 0xfc) >>> 2),
      b64char (((a &&& 0x03) <<< 4) + ((0 &&& 0xf0) >>> 4)), ?_, ?_, ?_⟩
    · exact b64char_mem _ (by rw [byte_and_fc_shr2 a ha]; omega)
    · exact b64char_mem _ (by rw [byte_and_03_shl4 a ha, hz]; omega)
    · conv_lhs => rw [hsplit, hal]
      rw [base64_encode_append _ _ htake]
      simp [base64_encode]
  · intro h2
    have hsplit := (List.take_append_drop (s.length - 2) s).symm
    have hdlen : (s.drop (s.length - 2)).length = 2 := by simp; omega
    obtain ⟨a, b, hal⟩ := List.length_eq_two.mp hdlen
    have ha : a < 256 := hs a (List.drop_subset _ _ (by rw [hal]; simp))
    have hb : b < 256 := hs b (List.drop_subset _ _ (by rw [hal]; simp))
    have htake : (s.take (s.length - 2)).length % 3 = 0 := by
      simp [List.length_take]; omega
    have hz : ((0 : Nat) &&& 0xc0) >>> 6 = 0 := rfl
    refine ⟨b64char ((a &&& 0xfc) >>> 2),
      b64char (((a &&& 0x03) <<< 4) + ((b &&& 0xf0) >>> 4)),
      b64char (((b &&& 0x0f) <<< 2) + ((0 &&& 0xc0) >>> 6)), ?_, ?_, ?_, ?_⟩
    · exact b64char_mem _ (by rw [byte_and_fc_shr2 a ha]; omega)
    · exact b64char_mem _
        (by rw [byte_and_03_shl4 a ha, byte_and_f0_shr4 b hb]; omega)
    · exact b64char_mem _ (by rw [byte_and_0f_shl2 b hb, hz]; omega)
    · conv_lhs => rw [hsplit, hal]
      rw [base64_encode_append _ _ htake]
      simp [base64_encode]

/-- Witness for C2 at the one-byte input `[77]` (the string `"M"`). -/
theorem claim_C2_witness :
    ∃ d1 d2, d1 ∈ base64_chars ∧ d2 ∈ base64_chars ∧
      base64_encode [77] =
        base64_encode (([77] : List Nat).take (([77] : List Nat).length - 1))
          ++ [d1, d2, 61, 61] :=
  (claim_C2_base64_padding.1 [77] (by decide)).1 (by decide)

/-- C4: decoding the output of `base64_encode` with the standard base64
decoder recovers the input exactly, and `base64_encode` is injective on byte
sequences. -/
theorem claim_C4_base64_roundtrip :
    (∀ s : List Nat, (∀ b ∈ s, b < 256) →
      base64_decode (base64_encode s) = some s) ∧
    (∀ s t : List Nat, (∀ b ∈ s, b < 256) → (∀ b ∈ t, b < 256) →
      base64_encode s = base64_encode t → s = t) := by
  refine ⟨base64_decode_encode, fun s t hs ht he => ?_⟩
  have h1 := base64_decode_encode s hs
  have h2 := base64_decode_encode t ht
  rw [he] at h1
  rw [h1] at h2
  exact Option.some.inj h2

/-- Witness for C4 at the bytes of `"Man"`. -/
theorem claim_C4_witness :
    base64_decode (base64_encode [77, 97, 110]) = some [77, 97, 110] :=
  claim_C4_base64_roundtrip.1 [77, 97, 110] (by decide)

theorem url_decode_cons_of_ne (c : Nat) (R : List Nat) (h : c ≠ 37) :
    url_decode (c :: R) = (url_decode R).map (fun d => c :: d) := by
  match R with
  | [] => simp [url_decode, if_neg h]
  | [x] => simp [url_decode, if_neg h]
  | x :: y :: t => simp [url_decode, if_neg h]

theorem url_decode_pct (h l : Nat) (R : List Nat) (hv lv : Nat)
    (hh : hexVal h = some hv) (hl : hexVal l = some lv) :
    url_decode (37 :: h :: l :: R)
      = (url_decode R).map (fun d => (hv * 16 + lv) :: d) := by
  simp [url_decode, hh, hl]

theorem hexVal_hexTable (i : Nat) (h : i < 16) : hexVal (hexTable.getD i 0) = some i :=
  (by decide : ∀ x : Fin 16, hexVal (hexTable.getD x.val 0) = some x.val) ⟨i, h⟩

/-- A byte accepted by the source's pass-through test is never `%` (37). -/
theorem passthrough_ne_37 (c : Nat)
    (h : (isalnumByte c || c == 45 || c == 95 || c == 46 || c == 126) = true) :
    c ≠ 37 := fun he => absurd (he ▸ h) (by decide)

theorem url_decode_encode (s : List Nat) (hs : ∀ b ∈ s, b < 256) :
    url_decode (url_encode s) = some s := by
  induction s with
  | nil => rfl
  | cons c rest ih =>
      have hc : c < 256 := hs c (by simp)
      have hrest : ∀ x ∈ rest, x < 256 := fun x hx => hs x (by simp [hx])
      by_cases h : (isalnumByte c || c == 45 || c == 95 || c == 46 || c == 126) = true
      · rw [url_encode, if_pos h,
          url_decode_cons_of_ne c _ (passthrough_ne_37 c h), ih hrest]
        simp only [Option.map_some']
      · have hcc : c / 16 * 16 + c % 16 = c := by omega
        rw [url_encode, if_neg h, byte_shr4 c hc, byte_and_15 c hc,
          url_decode_pct _ _ _ _ _ (hexVal_hexTable (c / 16) (by omega))
            (hexVal_hexTable (c % 16) (by omega)), ih hrest]
        simp only [Option.map_some', hcc]

/-! ## Claim theorems about the percent-encoder -/

/-- The source's pass-through condition agrees with the claim's set. -/
theorem passthrough_eq_isUnreserved (c : Nat) :
    (isalnumByte c || c == 45 || c == 95 || c == 46 || c == 126) = isUnreserved c := by
  rw [Bool.eq_iff_iff]
  simp only [isalnumByte, isUnreserved, Bool.or_eq_true, Bool.and_eq_true,
    decide_eq_true_eq, beq_iff_eq]
  tauto

/-- C3: every character passes through unchanged exactly when it is an ASCII
letter, digit, or `- _ . ~`; any other byte becomes `%` followed by its
two-digit uppercase hex value; and the spec's literal example holds. -/
theorem claim_C3_url_encode_chars :
    (∀ s : List Nat, (∀ b ∈ s, b < 256) →
      url_encode s = (s.map urlEncodeCharSpec).flatten) ∧
    (∀ b : Nat, urlEncodeCharSpec b = [b] ↔ isUnreserved b = true) ∧
    url_encode (strBytes "a+b/c=") = strBytes "a%2Bb%2Fc%3D" := by
  refine ⟨?_, ?_, by decide⟩
  · intro s hs
    induction s with
    | nil => rfl
    | cons c rest ih =>
        have hc : c < 256 := hs c (by simp)
        have hrest : ∀ x ∈ rest, x < 256 := fun x hx => hs x (by simp [hx])
        by_cases h : isUnreserved c = true
        · have hsrc : (isalnumByte c || c == 45 || c == 95 || c == 46 || c == 126)
              = true := by rw [passthrough_eq_isUnreserved]; exact h
          rw [url_encode, if_pos hsrc, ih hrest]
          simp [urlEncodeCharSpec, h]
        · have hsrc : ¬ ((isalnumByte c || c == 45 || c == 95 || c == 46 || c == 126)
              = true) := by rw [passthrough_eq_isUnreserved]; exact h
          rw [url_encode, if_neg hsrc, byte_shr4 c hc, byte_and_15 c hc, ih hrest]
          simp [urlEncodeCharSpec, h]
  · intro b
    by_cases h : isUnreserved b = true
    · simp [urlEncodeCharSpec, h]
    · simp [urlEncodeCharSpec, h]

/-- Witness for C3 at the single byte `+` (43). -/
theorem claim_C3_witness :
    url_encode [43] = (([43] : List Nat).map urlEncodeCharSpec).flatten :=
  claim_C3_url_encode_chars.1 [43] (by decide)

/-- C10: `url_encode` is injective over byte strings, including bytes above
the 7-bit ASCII range; its output decodes unambiguously. -/
theorem claim_C10_url_encode_injective :
    (∀ s : List Nat, (∀ b ∈ s, b < 256) →
      url_decode (url_encode s) = some s) ∧
    (∀ s t : List Nat, (∀ b ∈ s, b < 256) → (∀ b ∈ t, b < 256) →
      url_encode s = url_encode t → s = t) := by
  refine ⟨url_decode_encode, fun s t hs ht he => ?_⟩
  have h1 := url_decode_encode s hs
  have h2 := url_decode_encode t ht
  rw [he] at h1
  rw [h1] at h2
  exact Option.some.inj h2

/-- Witness for C10 at `[37, 200]`: the percent byte itself and a byte above
the ASCII range. -/
theorem claim_C10_witness :
    url_decode (url_encode [37, 200]) = some [37, 200] :=
  claim_C10_url_encode_injective.1 [37, 200] (by decide)
theorem deflateLoop_split (calls : List DeflateCall) (out : List Nat)
    (ret : Int) (a : Nat) (h : deflateLoop calls = some (out, ret, a)) :
    ∃ pre c post, calls = pre ++ c :: post ∧ (∀ d ∈ pre, d.ret = Z_OK) ∧
      c.ret ≠ Z_OK ∧ c.ret = ret ∧ c.availIn = a ∧
      out = (pre.map DeflateCall.out).flatten ++ c.out := by
  induction calls generalizing out ret a with
  | nil => simp [deflateLoop] at h
  | cons c rest ih =>
      rw [deflateLoop] at h
      by_cases hc : c.ret = Z_OK
      · rw [if_pos hc] at h
        cases hrest : deflateLoop rest with
        | none => rw [hrest] at h; simp at h
        | some r =>
            obtain ⟨o1, r1, a1⟩ := r
            rw [hrest] at h
            simp only [Option.map_some', Option.some.injEq, Prod.mk.injEq] at h
            obtain ⟨h1, h2, h3⟩ := h
            obtain ⟨pre, c2, post, hcalls, hpre, hne, hret, ha, hout⟩ :=
              ih o1 r1 a1 hrest
            refine ⟨c :: pre, c2, post, by rw [hcalls]; rfl, ?_, hne,
              h2 ▸ hret, h3 ▸ ha, ?_⟩
            · intro d hd
              rcases List.mem_cons.mp hd with hd | hd
              · exact hd ▸ hc
              · exact hpre d hd
            · rw [← h1, hout]
              simp
      · rw [if_neg hc] at h
        simp only [Option.some.injEq, Prod.mk.injEq] at h
        obtain ⟨h1, h2, h3⟩ := h
        exact ⟨[], c, rest, rfl, by simp, hc, h2, h3, by simp [h1]⟩

/-- C6: `compress_data` fails exactly when initialization fails or the loop
ends in a state other than `Z_STREAM_END`; on success the terminal state is
`Z_STREAM_END`, all input has been consumed (`avail_in = 0`, zlib's
`Z_STREAM_END` contract), and the result is the concatenation of the chunks
emitted by the executed calls. -/
theorem claim_C6_compress_data_errors (initOk : Bool) (calls : List DeflateCall)
    (out : List Nat) (ret : Int) (a : Nat)
    (hloop : deflateLoop calls = some (out, ret, a))
    (hzlib : ret = Z_STREAM_END → a = 0) :
    ((∃ msg, compress_data initOk calls = some (Except.error msg)) ↔
      (initOk = false ∨ ret ≠ Z_STREAM_END)) ∧
    (∀ v, compress_data initOk calls = some (Except.ok v) →
      v = out ∧ ret = Z_STREAM_END ∧ a = 0 ∧
      ∃ pre c post, calls = pre ++ c :: post ∧ (∀ d ∈ pre, d.ret = Z_OK) ∧
        c.ret = Z_STREAM_END ∧ v = (pre.map DeflateCall.out).flatten ++ c.out) := by
  by_cases hinit : initOk = false
  · constructor
    · simp [compress_data, hinit]
    · intro v hv
      rw [compress_data, if_pos hinit] at hv
      simp at hv
  · by_cases hret : ret = Z_STREAM_END
    · constructor
      · simp [compress_data, hinit, hloop, hret]
      · intro v hv
        rw [compress_data, if_neg hinit, hloop] at hv
        simp [hret] at hv
        have hv2 : v = out := by simp [hv]
        obtain ⟨pre, c, post, hcalls, hpre, hne, hcr, hca, hout⟩ :=
          deflateLoop_split calls out ret a hloop
        exact ⟨hv2, hret, hzlib hret, pre, c, post, hcalls, hpre,
          hcr.trans hret, by rw [hv2, hout]⟩
    · constructor
      · simp [compress_data, hinit, hloop, hret]
      · intro v hv
        rw [compress_data, if_neg hinit, hloop] at hv
        simp [hret] at hv

/-- Witness for C6: a one-call engine that immediately ends the stream. -/
theorem claim_C6_witness :
    (∃ msg, compress_data true [⟨[7], Z_STREAM_END, 0⟩] = some (Except.error msg)) ↔
      (true = false ∨ Z_STREAM_END ≠ Z_STREAM_END) :=
  (claim_C6_compress_data_errors true [⟨[7], Z_STREAM_END, 0⟩] [7] Z_STREAM_END 0
    rfl (fun _ => rfl)).1
theorem create_shareable_url_ok (compress : List Nat → Except String (List Nat))
    (e s ce cs : List Nat)
    (he : compress ([34] ++ e ++ [34]) = Except.ok ce)
    (hs : compress ([91] ++ s ++ [93]) = Except.ok cs) :
    create_shareable_url compress e s =
      Except.ok (base_url ++ strBytes "?e=" ++ url_encode (base64_encode ce)
        ++ strBytes "&s=" ++ url_encode (base64_encode cs)) := by
  have h1 : strBytes "\"" ++ e ++ strBytes "\"" = [34] ++ e ++ [34] := rfl
  have h2 : strBytes "[" ++ s ++ strBytes "]" = [91] ++ s ++ [93] := rfl
  rw [create_shareable_url]
  rw [h1, h2, he, hs]

/-- C1: when both compressions succeed, the result is exactly the constant
base URL, `?e=`, the percent-encoded base64 of the compressed quote-wrapped
expression, `&s=`, and the percent-encoded base64 of the compressed
bracket-wrapped sizes; the expression is wrapped in bare `"` bytes with no
escaping. -/
theorem claim_C1_create_shareable_url (compress : List Nat → Except String (List Nat))
    (e s ce cs : List Nat)
    (he : compress ([34] ++ e ++ [34]) = Except.ok ce)
    (hs : compress ([91] ++ s ++ [93]) = Except.ok cs) :
    create_shareable_url compress e s =
      Except.ok (base_url ++ strBytes "?e=" ++ url_encode (base64_encode ce)
        ++ strBytes "&s=" ++ url_encode (base64_encode cs)) :=
  create_shareable_url_ok compress e s ce cs he hs

/-- Witness for C1 with the identity compressor. -/
theorem claim_C1_witness :
    create_shareable_url (fun x => Except.ok x) [97] [50] =
      Except.ok (base_url ++ strBytes "?e="
        ++ url_encode (base64_encode [34, 97, 34])
        ++ strBytes "&s=" ++ url_encode (base64_encode [91, 50, 93])) :=
  claim_C1_create_shareable_url (fun x => Except.ok x) [97] [50]
    [34, 97, 34] [91, 50, 93] rfl rfl

/-- C7: `create_shareable_url` fails only by propagating a compression error
on one of the two wrapped inputs, and otherwise returns the complete URL —
never a partial result. -/
theorem claim_C7_error_or_complete_url (compress : List Nat → Except String (List Nat))
    (e s : List Nat) :
    (∃ msg, create_shareable_url compress e s = Except.error msg ∧
      (compress ([34] ++ e ++ [34]) = Except.error msg ∨
       compress ([91] ++ s ++ [93]) = Except.error msg)) ∨
    (∃ ce cs, compress ([34] ++ e ++ [34]) = Except.ok ce ∧
      compress ([91] ++ s ++ [93]) = Except.ok cs ∧
      create_shareable_url compress e s =
        Except.ok (base_url ++ strBytes "?e=" ++ url_encode (base64_encode ce)
          ++ strBytes "&s=" ++ url_encode (base64_encode cs))) := by
  have h1 : strBytes "\"" ++ e ++ strBytes "\"" = [34] ++ e ++ [34] := rfl
  have h2 : strBytes "[" ++ s ++ strBytes "]" = [91] ++ s ++ [93] := rfl
  cases he : compress ([34] ++ e ++ [34]) with
  | error msg =>
      left
      refine ⟨msg, ?_, Or.inl rfl⟩
      rw [create_shareable_url, h1, he]
  | ok ce =>
      cases hs : compress ([91] ++ s ++ [93]) with
      | error msg =>
          left
          refine ⟨msg, ?_, Or.inr rfl⟩
          rw [create_shareable_url, h1, h2, he, hs]
      | ok cs =>
          right
          exact ⟨ce, cs, rfl, rfl,
            create_shareable_url_ok compress e s ce cs he hs⟩
theorem inflateStored_deflate (s extra : List Nat) :
    inflateStored (deflateStoredBlocks s ++ extra) = some (s, extra) := by
  induction s using deflateStoredBlocks.induct with
  | case1 s h =>
      rw [deflateStoredBlocks, dif_pos h]
      have e1 : s.length % 256 + 256 * (s.length / 256) = s.length := by omega
      have e2 : (65535 - s.length) % 256 + 256 * ((65535 - s.length) / 256)
          = 65535 - s.length := by omega
      simp only [storedBlockHeader, List.cons_append, List.nil_append,
        inflateStored, e1, e2]
      rw [if_pos ⟨by omega, by simp⟩]
      simp only [if_true]
      rw [List.take_left' rfl, List.drop_left' rfl]
  | case2 s h ih =>
      rw [deflateStoredBlocks, dif_neg h]
      have htl : (s.take 65535).length = 65535 := by
        simp [List.length_take]; omega
      simp only [storedBlockHeader, List.cons_append, List.nil_append,
        List.append_assoc, inflateStored]
      norm_num
      constructor
      · omega
      · refine ⟨s.drop 65535, ?_, ?_⟩
        · rw [List.drop_left' htl, ih]
        · rw [List.take_left' htl, List.take_append_drop]

/-- C5: the modelled `compress_data` output is a gzip-framed stream — it
begins with the gzip magic bytes and deflate method id, and gzip
decompression recovers the input exactly. -/
theorem claim_C5_gzip_roundtrip : ∀ s : List Nat,
    gzip_decompress (gzip_compress s) = some s ∧
    (gzip_compress s).take 3 = [31, 139, 8] := by
  intro s
  refine ⟨?_, rfl⟩
  rw [gzip_compress]
  simp only [gzip_decompress]
  rw [if_pos (by simp), inflateStored_deflate]
  simp
